import Mathlib

/-
Verification of the fetch-and-merge core of the steelscript-stock repository.

The development shallowly embeds the two fetchers
(`StockQuery.get_historical_prices` in
`steelscript/stock/appfwk/datasources/stock_source.py` and
`get_historical_prices` in `steelscript/stock/core/app.py`), the series
merger (`MultiStockQuery.merge_price_history`), the column renaming done by
`MultiStockQuery.run_query`, the CLI argument validation
(`StockApp.validate_args`), and the query-parameter construction.

Python dicts are modelled as association lists with unique keys; float
values are kept as their raw source tokens (they are parsed and stored but
never computed with); datetime objects produced by `TimeParser.parse` are
modelled abstractly by a natural-number day index that preserves their
ordering; date strings are kept as strings.
-/

/-- A value stored in a per-day record (a Python dict value): either a parsed
datetime (modelled by its day index), a raw string (e.g. a date string when
`date_obj` is false), or a float kept as its source token. -/
inductive Val where
  | vdate : Nat → Val
  | vstr : String → Val
  | vnum : String → Val
deriving DecidableEq, Repr

/-- A per-day record: a Python dict from key strings to values, modelled as an
association list whose keys are unique. -/
abbrev Day := List (String × Val)

/-- Python dict lookup `d[k]` (as an `Option`; `none` models `KeyError`). -/
def dget (d : Day) (k : String) : Option Val :=
  d.lookup k

/-- Python `d[k] = v`: update the binding in place if the key exists,
otherwise add it. -/
def dset (d : Day) (k : String) (v : Val) : Day :=
  if d.any (fun p => p.1 == k) then
    d.map (fun p => if p.1 == k then (k, v) else p)
  else d ++ [(k, v)]

/-- Python `del d[k]`. -/
def ddel (d : Day) (k : String) : Day :=
  d.filter (fun p => p.1 != k)

/-- Python `dict(a.items() + b.items())`: a dict holding the keys of both
operands, where a key present in both gets `b`'s value. -/
def dmerge (a b : Day) : Day :=
  a.filter (fun p => (b.lookup p.1).isNone) ++ b

/-- `MultiStockQuery.merge_price_history` (stock_source.py lines 240-258).
If the accumulated table `data` is empty the new history `his` is taken as
is.  Otherwise the SHORTER list is aligned positionally against the TAIL of
the longer one and the aligned rows are dict-merged pairwise (the new
history's bindings, its `date` binding included, overriding):
`self.data[-len(his)+i] = dict(self.data[-len(his)+i].items() + his[i].items())`
when `len(self.data) >= len(his)`, and symmetrically into `his` otherwise. -/
def merge_price_history (data his : List Day) : List Day :=
  if data.isEmpty then his
  else if his.length ≤ data.length then
    data.take (data.length - his.length)
      ++ List.zipWith dmerge (data.drop (data.length - his.length)) his
  else
    his.take (his.length - data.length)
      ++ List.zipWith dmerge data (his.drop (his.length - data.length))

/-- The dates (as day indices) of the rows of a table, in row order.  Rows
whose `date` entry is missing or is not a parsed datetime contribute
nothing. -/
def datesNat (l : List Day) : List Nat :=
  l.filterMap (fun d =>
    match d.lookup "date" with
    | some (Val.vdate n) => some n
    | _ => none)

/-- `true` iff the list is strictly ascending. -/
def strictAscB : List Nat → Bool
  | [] => true
  | [_] => true
  | a :: b :: t => decide (a < b) && strictAscB (b :: t)

/-- The per-row renaming in `MultiStockQuery.run_query` (stock_source.py
lines 272-275): `day[ticker] = day[measure]; del day[measure]`.  `none`
models the `KeyError` Python would raise if the measure key were absent. -/
def renameDay (measure ticker : String) (d : Day) : Option Day :=
  (d.lookup measure).map (fun v => ddel (dset d ticker v) measure)

/-- The `for day in history` loop of `MultiStockQuery.run_query` applying
`renameDay` to every row. -/
def renameAll (measure ticker : String) : List Day → Option (List Day)
  | [] => some []
  | d :: rest =>
    match renameDay measure ticker d with
    | none => none
    | some d2 =>
      match renameAll measure ticker rest with
      | none => none
      | some rest2 => some (d2 :: rest2)

/-- The measure-to-column-index mapping shared by both fetchers
(stock_source.py lines 170-174, app.py lines 18-22). -/
def mapping : List (String × Nat) :=
  [("open", 1), ("high", 2), ("low", 3), ("close", 4), ("volume", 5)]

/-- Python `s.split(',')` (auxiliary recursion over the characters). -/
def splitCommaAux : List Char → List Char → List String
  | [], acc => [String.mk acc.reverse]
  | c :: cs, acc =>
    if c = ',' then String.mk acc.reverse :: splitCommaAux cs []
    else splitCommaAux cs (c :: acc)

/-- Python `s.split(',')`: the comma-separated fields of `s`; never empty,
and `"".split(',') = [""]`. -/
def splitComma (s : String) : List String :=
  splitCommaAux s.data []

/-- Python `s[:-2]`: drop the final two characters (used by the appfwk
fetcher to strip the trailing CR LF of each response line). -/
def dropLast2 (s : String) : String :=
  String.mk (s.data.take (s.data.length - 2))

/-- The `for m in measures` loop of both fetchers: for each requested
measure that is in `mapping`, read column `mapping[m]` of the row; a
measure not in `mapping` is skipped.  `none` models the `IndexError` raised
when the row has too few columns. -/
def parseFields (cols : List String) : List String → Option (List (String × Val))
  | [] => some []
  | m :: ms =>
    match mapping.lookup m with
    | none => parseFields cols ms
    | some i =>
      match cols.get? i with
      | none => none
      | some s => (parseFields cols ms).map (fun rest => (m, Val.vnum s) :: rest)

/-- One iteration of the row loop of both fetchers: build the dict
`{'date': day[0], m: float(day[mapping[m]]) for requested known m}`.
The date is kept as its raw string (the `date_obj` false branch); `none`
models an `IndexError`. -/
def parseRow (measures cols : List String) : Option Day :=
  match cols.get? 0 with
  | none => none
  | some d => (parseFields cols measures).map (fun fields => ("date", Val.vstr d) :: fields)

/-- The whole row loop: rows are parsed in order and the first `IndexError`
aborts everything (the `try` block encloses the loop in both fetchers). -/
def parseRows (measures : List String) : List (List String) → Option (List Day)
  | [] => some []
  | cols :: rest =>
    match parseRow measures cols with
    | none => none
    | some day =>
      match parseRows measures rest with
      | none => none
      | some days => some (day :: days)

/-- The message of the `StockApiException` raised by the appfwk fetcher
(stock_source.py lines 213-215):
`"Symbol '%s' is invalid or Stock '%s' was not on market on %s" % (symbol, symbol, self.t1)`. -/
def errMsg (symbol t1 : String) : String :=
  "Symbol \x27" ++ symbol ++ "\x27 is invalid or Stock \x27" ++ symbol
    ++ "\x27 was not on market on " ++ t1

/-- How a fetch fails: a `StockApiException` (the domain error, carrying a
message), or a Python `IndexError` escaping uncaught. -/
inductive FetchErr where
  | symbolData : String → FetchErr
  | indexError : FetchErr
deriving DecidableEq, Repr

/-- `StockQuery.get_historical_prices` (stock_source.py lines 179-216),
from the already-fetched response `lines` on: the header line is dropped,
the data lines are walked in reversed order, each is stripped of its two
trailing characters and comma-split, and any `IndexError` from a too-short
row is caught and re-raised as a `StockApiException` whose message names
the symbol and the end date `t1`. -/
def get_historical_prices (symbol t1 : String) (measures : List String)
    (lines : List String) : Except FetchErr (List Day) :=
  match parseRows measures
      ((lines.drop 1).reverse.map (fun day => splitComma (dropLast2 day))) with
  | some ret => Except.ok ret
  | none => Except.error (FetchErr.symbolData (errMsg symbol t1))

/-- `get_historical_prices` of core/app.py (lines 35-92), from the
already-fetched response `lines` on: same row loop, but without the
two-character strip, and its `except` clause catches only the transport
error `RvbdHTTPException` - an `IndexError` from a too-short row escapes
uncaught. -/
def get_historical_prices_core (symbol end_ : String) (measures : List String)
    (lines : List String) : Except FetchErr (List Day) :=
  match parseRows measures ((lines.drop 1).reverse.map splitComma) with
  | some ret => Except.ok ret
  | none => Except.error FetchErr.indexError

/-- The measure fields of a PricePoint row: every dict entry except the
`date` key. -/
def fieldsOf (d : Day) : Day :=
  d.filter (fun p => p.1 != "date")

/-- The measure names `StockApp.validate_args` accepts (app.py line 125). -/
def knownMeasures : List String :=
  ["open", "high", "low", "close", "volume"]

/-- `StockApp.validate_args` (app.py lines 114-150).  The begin and end
dates and today's date enter already parsed (`parse_date` results are
modelled by ordered day indices; the `begin` option being unset or
unparseable is folded into the `none` case). -/
def validate_args (symbol measures resolution : String)
    (beginDate : Option Nat) (endDate today : Nat) : Except String Unit :=
  if symbol = "" then Except.error "Symbol needs to be specified"
  else if measures = "" then Except.error "Measures needs to be specified"
  else
    match (splitComma measures).find? (fun m => !(knownMeasures.contains m)) with
    | some m => Except.error ("Invalid measure " ++ m)
    | none =>
      if ["day", "week"].contains resolution then
        match beginDate with
        | none => Except.error "Begin date needs to be specified"
        | some b =>
          if b > min endDate today then
            Except.error ("Begin date " ++ toString b
              ++ " is later than either today\x27s date " ++ toString today
              ++ " or end date " ++ toString endDate)
          else Except.ok ()
      else Except.error ("Invalid resolution " ++ resolution)

/-- A calendar date as decomposed by `parse_date` (app.py lines 53-58). -/
structure PDate where
  year : Nat
  month : Nat
  day : Nat
deriving DecidableEq, Repr

/-- A query-parameter value: a string or a number. -/
inductive PVal where
  | str : String → PVal
  | num : Nat → PVal
deriving DecidableEq, Repr

/-- The query-parameter dict built by the core fetcher (app.py lines
61-69): `a`/`d` carry `month - 1` of the begin/end date, `b`/`e` the day,
`c`/`f` the year (calendar months are at least 1, so the truncated natural
subtraction agrees with Python's integer subtraction).  The appfwk fetcher
(stock_source.py lines 193-201) assembles the same parameters into the URL
by slicing the `YYYY-MM-DD` strings. -/
def buildParams (symbol : String) (b e : PDate) (resolution : String) :
    List (String × PVal) :=
  [("s", PVal.str symbol),
   ("a", PVal.num (b.month - 1)),
   ("b", PVal.num b.day),
   ("c", PVal.num b.year),
   ("d", PVal.num (e.month - 1)),
   ("e", PVal.num e.day),
   ("f", PVal.num e.year),
   ("g", PVal.str (resolution.take 1)),
   ("ignore", PVal.str ".csv")]

/-- Example row: date 1 with column `ka` (series A of the merge
counterexamples). -/
def rowA1 : Day := [("date", Val.vdate 1), ("ka", Val.vnum "10.0")]

/-- Example row: date 2 with column `kb` (series B of the merge
counterexamples). -/
def rowB2 : Day := [("date", Val.vdate 2), ("kb", Val.vnum "20.0")]

/-- Example row: date 5 with column `ka`. -/
def rowA5 : Day := [("date", Val.vdate 5), ("ka", Val.vnum "1.0")]

/-- Example row: date 6 with column `ka`. -/
def rowA6 : Day := [("date", Val.vdate 6), ("ka", Val.vnum "2.0")]

/-- Example row: date 1 with column `kb`. -/
def rowB1 : Day := [("date", Val.vdate 1), ("kb", Val.vnum "3.0")]

/-- Helper: renaming the single measure column of a two-entry row replaces
the measure binding by a `ticker` binding with the same value and leaves
the date binding unchanged. -/
theorem renameDay_pair (dt : Nat) (v : String) (m k : String)
    (hm : m ≠ "date") (hk : k ≠ "date") (hmk : m ≠ k) :
    renameDay m k [("date", Val.vdate dt), (m, Val.vnum v)]
      = some [("date", Val.vdate dt), (k, Val.vnum v)] := by
  have h1 : (m == "date") = false := beq_eq_false_iff_ne.mpr hm
  have h2 : (("date" : String) == k) = false := beq_eq_false_iff_ne.mpr (Ne.symm hk)
  have h3 : (m == k) = false := beq_eq_false_iff_ne.mpr hmk
  have h4 : (("date" : String) != m) = true := bne_iff_ne.mpr (Ne.symm hm)
  have h5 : ((k : String) != m) = true := bne_iff_ne.mpr (Ne.symm hmk)
  simp [renameDay, dset, ddel, List.lookup, List.filter, h1, h2, h3, h4, h5]

/-- Helper: `run_query`'s renaming loop maps a whole single-measure series
to the same series with the measure column renamed. -/
theorem renameAll_zipWith (m k : String) (hm : m ≠ "date") (hk : k ≠ "date")
    (hmk : m ≠ k) :
    ∀ (dates : List Nat) (vals : List String),
    renameAll m k
        (List.zipWith (fun dt v => [("date", Val.vdate dt), (m, Val.vnum v)]) dates vals)
      = some (List.zipWith (fun dt v => [("date", Val.vdate dt), (k, Val.vnum v)]) dates vals)
  | [], _ => rfl
  | _ :: _, [] => rfl
  | dt :: dates, v :: vals => by
    simp only [List.zipWith, renameAll, renameDay_pair dt v m k hm hk hmk,
      renameAll_zipWith m k hm hk hmk dates vals]

/-- C1 (code bug): outer-join completeness fails on the code.  With
`A = [rowA1]` (date 1) and `B = [rowB2]` (date 2) - both strictly
ascending and unique by date - the positional merge
`merge(merge(∅,A,ka), B, kb)` yields a single row, although
`|dates(A) ∪ dates(B)| = 2`. -/
theorem merge_positional_breaks_outer_join_completeness :
    strictAscB (datesNat [rowA1]) = true
    ∧ strictAscB (datesNat [rowB2]) = true
    ∧ (merge_price_history (merge_price_history [] [rowA1]) [rowB2]).length = 1
    ∧ ((datesNat [rowA1] ++ datesNat [rowB2]).dedup.length = 2) := by
  decide

/-- C2 (code bug): column sparsity fails on the code.  With `A = [rowA1]`
(date 1, column `ka`) and `B = [rowB2]` (date 2, column `kb`), the merged
output is a single row whose date 2 lies in `dates(B) \ dates(A)`, yet its
column `ka` is set (to A's value) instead of being unset. -/
theorem merge_positional_breaks_column_sparsity :
    merge_price_history (merge_price_history [] [rowA1]) [rowB2]
      = [[("ka", Val.vnum "10.0"), ("date", Val.vdate 2), ("kb", Val.vnum "20.0")]]
    ∧ dget [("ka", Val.vnum "10.0"), ("date", Val.vdate 2), ("kb", Val.vnum "20.0")] "date"
        = some (Val.vdate 2)
    ∧ (2 ∈ datesNat [rowB2] ∧ 2 ∉ datesNat [rowA1])
    ∧ dget [("ka", Val.vnum "10.0"), ("date", Val.vdate 2), ("kb", Val.vnum "20.0")] "ka"
        ≠ none := by
  decide

/-- C3 (code bug): order preservation fails on the code.  With
`A = [rowA5, rowA6]` (dates 5, 6) and `B = [rowB1]` (date 1) - both
strictly ascending and unique by date - the positional merge emits the
dates in the order 5, 1, which is not strictly ascending. -/
theorem merge_positional_breaks_order_preservation :
    strictAscB (datesNat [rowA5, rowA6]) = true
    ∧ strictAscB (datesNat [rowB1]) = true
    ∧ datesNat (merge_price_history (merge_price_history [] [rowA5, rowA6]) [rowB1]) = [5, 1]
    ∧ strictAscB (datesNat (merge_price_history (merge_price_history [] [rowA5, rowA6]) [rowB1]))
        = false := by
  decide

/-- C4: merging a single RawSeries into an empty accumulated table under
column key `k` yields exactly the input series with its single measure
column `m` renamed to `k`: the renaming loop of `run_query` maps each row
`{date: dt, m: v}` to `{date: dt, k: v}`, and `merge_price_history` with an
empty accumulated table returns the renamed series unchanged. -/
theorem merge_single_series_identity (dates : List Nat) (vals : List String)
    (m k : String) (hm : m ≠ "date") (hk : k ≠ "date") (hmk : m ≠ k) :
    renameAll m k
        (List.zipWith (fun dt v => [("date", Val.vdate dt), (m, Val.vnum v)]) dates vals)
      = some (List.zipWith (fun dt v => [("date", Val.vdate dt), (k, Val.vnum v)]) dates vals)
    ∧ merge_price_history []
        (List.zipWith (fun dt v => [("date", Val.vdate dt), (k, Val.vnum v)]) dates vals)
      = List.zipWith (fun dt v => [("date", Val.vdate dt), (k, Val.vnum v)]) dates vals :=
  ⟨renameAll_zipWith m k hm hk hmk dates vals, rfl⟩

/-- Witness for C4 at a concrete input: the two-day series with measure
`close` and ticker key `aapl`. -/
theorem merge_single_series_identity_witness :
    ("close" ≠ "date") ∧ ("aapl" ≠ "date") ∧ ("close" ≠ "aapl")
    ∧ (renameAll "close" "aapl"
          (List.zipWith (fun dt v => [("date", Val.vdate dt), ("close", Val.vnum v)])
            [1, 2] ["10.0", "20.0"])
        = some (List.zipWith (fun dt v => [("date", Val.vdate dt), ("aapl", Val.vnum v)])
            [1, 2] ["10.0", "20.0"])
      ∧ merge_price_history []
          (List.zipWith (fun dt v => [("date", Val.vdate dt), ("aapl", Val.vnum v)])
            [1, 2] ["10.0", "20.0"])
        = List.zipWith (fun dt v => [("date", Val.vdate dt), ("aapl", Val.vnum v)])
            [1, 2] ["10.0", "20.0"]) :=
  ⟨by decide, by decide, by decide,
    merge_single_series_identity [1, 2] ["10.0", "20.0"] "close" "aapl"
      (by decide) (by decide) (by decide)⟩

/-- Helper: a successful row loop relates input rows and parsed days
pointwise. -/
theorem parseRows_forall₂ (measures : List String) :
    ∀ {rows : List (List String)} {ds : List Day},
    parseRows measures rows = some ds →
    List.Forall₂ (fun cols day => parseRow measures cols = some day) rows ds := by
  intro rows
  induction rows with
  | nil =>
    intro ds h
    simp only [parseRows, Option.some.injEq] at h
    subst h
    exact List.Forall₂.nil
  | cons cols rest ih =>
    intro ds h
    unfold parseRows at h
    cases hp : parseRow measures cols with
    | none => rw [hp] at h; cases h
    | some day =>
      rw [hp] at h
      cases hr : parseRows measures rest with
      | none => rw [hr] at h; cases h
      | some days =>
        rw [hr] at h
        cases h
        exact List.Forall₂.cons hp (ih hr)

/-- Helper: a successfully parsed row carries the row's first column as its
`date` entry. -/
theorem parseRow_lookup_date {measures cols : List String} {day : Day}
    (h : parseRow measures cols = some day) :
    day.lookup "date" = (cols.get? 0).map Val.vstr := by
  unfold parseRow at h
  cases h0 : cols.get? 0 with
  | none => rw [h0] at h; cases h
  | some d =>
    rw [h0] at h
    cases hf : parseFields cols measures with
    | none => rw [hf] at h; cases h
    | some fields =>
      rw [hf] at h
      simp only [Option.map_some', Option.some.injEq] at h
      subst h
      simp [List.lookup]

/-- Helper: mapping both sides of a pointwise relation. -/
theorem map_eq_of_forall₂ {α β γ : Type} {R : α → β → Prop} (f : β → γ) (g : α → γ)
    (H : ∀ a b, R a b → f b = g a) :
    ∀ {l : List α} {l2 : List β}, List.Forall₂ R l l2 → l2.map f = l.map g := by
  intro l l2 h
  induction h with
  | nil => rfl
  | cons hr _ ih => simp [List.map, ih, H _ _ hr]

/-- C5: whenever the appfwk fetcher succeeds, the returned series is
exactly the reversal of the response's data rows (header dropped), each
row parsed in place; consequently the returned dates are the reversal of
the response's date column, so a newest-first response yields an
oldest-first series. -/
theorem fetch_returns_reversed_rows (symbol t1 : String) (measures : List String)
    (lines : List String) (ret : List Day)
    (h : get_historical_prices symbol t1 measures lines = Except.ok ret) :
    List.Forall₂ (fun line day => parseRow measures (splitComma (dropLast2 line)) = some day)
      (lines.drop 1).reverse ret
    ∧ ret.map (fun d => d.lookup "date")
        = ((lines.drop 1).map
            (fun line => ((splitComma (dropLast2 line)).get? 0).map Val.vstr)).reverse := by
  unfold get_historical_prices at h
  cases hp : parseRows measures
      ((lines.drop 1).reverse.map (fun day => splitComma (dropLast2 day))) with
  | none => rw [hp] at h; cases h
  | some r =>
    rw [hp] at h
    cases h
    have h3 : List.Forall₂
        (fun line day => parseRow measures (splitComma (dropLast2 line)) = some day)
        (lines.drop 1).reverse ret :=
      List.forall₂_map_left_iff.mp (parseRows_forall₂ measures hp)
    refine ⟨h3, ?_⟩
    have h4 : ret.map (fun d => d.lookup "date")
        = (lines.drop 1).reverse.map
            (fun line => ((splitComma (dropLast2 line)).get? 0).map Val.vstr) :=
      map_eq_of_forall₂ _ _ (fun a b hab => parseRow_lookup_date hab) h3
    rw [h4, List.map_reverse]

/-- Concrete three-line provider response (header plus two newest-first
data rows), used by the C5 witness. -/
def exLines : List String :=
  ["Date,Open,High,Low,Close,Volume,Adj Close\r\n",
   "2014-02-20,20.0,21.0,19.0,20.5,1000,20.5\r\n",
   "2014-02-19,19.0,20.0,18.0,19.5,1100,19.5\r\n"]

/-- The oldest-first series the appfwk fetcher returns for `exLines`. -/
def exRet : List Day :=
  [[("date", Val.vstr "2014-02-19"), ("close", Val.vnum "19.5")],
   [("date", Val.vstr "2014-02-20"), ("close", Val.vnum "20.5")]]

/-- Witness for C5 at the concrete response `exLines`. -/
theorem fetch_returns_reversed_rows_witness :
    get_historical_prices "AAPL" "2014-02-20" ["close"] exLines = Except.ok exRet
    ∧ (List.Forall₂
          (fun line day => parseRow ["close"] (splitComma (dropLast2 line)) = some day)
          (exLines.drop 1).reverse exRet
        ∧ exRet.map (fun d => d.lookup "date")
            = ((exLines.drop 1).map
                (fun line => ((splitComma (dropLast2 line)).get? 0).map Val.vstr)).reverse) :=
  ⟨rfl, fetch_returns_reversed_rows "AAPL" "2014-02-20" ["close"] exLines exRet rfl⟩

/-- Helper: string concatenation is associative. -/
theorem string_append_assoc (a b c : String) : a ++ b ++ c = a ++ (b ++ c) :=
  String.ext (by simp [String.data_append])

/-- C6 counterexample: on a provider response consisting of the header row
only, the appfwk fetcher for symbol `ZZZ` returns the empty series as a
success - it raises nothing (the row loop simply has nothing to iterate,
so no `IndexError` occurs). -/
theorem fetch_header_only_returns_empty_ok :
    get_historical_prices "ZZZ" "2014-02-19" ["open", "high", "low", "close"]
      ["Date,Open,High,Low,Close,Volume,Adj Close\r\n"] = Except.ok []
    ∧ ¬ ∃ err, get_historical_prices "ZZZ" "2014-02-19" ["open", "high", "low", "close"]
        ["Date,Open,High,Low,Close,Volume,Adj Close\r\n"] = Except.error err := by
  refine ⟨rfl, ?_⟩
  rintro ⟨err, herr⟩
  rw [show get_historical_prices "ZZZ" "2014-02-19" ["open", "high", "low", "close"]
      ["Date,Open,High,Low,Close,Volume,Adj Close\r\n"] = Except.ok [] from rfl] at herr
  simp at herr

/-- C6 amended: for every provider response whose body contains only the
header row, both fetchers return the empty series as a success result
rather than failing. -/
theorem fetch_header_only_is_empty_success (symbol t1 : String)
    (measures : List String) (header : String) :
    get_historical_prices symbol t1 measures [header] = Except.ok []
    ∧ get_historical_prices_core symbol t1 measures [header] = Except.ok [] :=
  ⟨rfl, rfl⟩

/-- Helper: the measure loop hits an `IndexError` whenever some requested
measure's column index is beyond the row's column count. -/
theorem parseFields_eq_none {cols : List String} :
    ∀ {measures : List String},
    (∃ m ∈ measures, ∃ i, mapping.lookup m = some i ∧ cols.length ≤ i) →
    parseFields cols measures = none := by
  intro measures
  induction measures with
  | nil => rintro ⟨m, hm, _⟩; cases hm
  | cons m2 ms ih =>
    rintro ⟨m, hm, i, hlk, hle⟩
    rcases List.mem_cons.mp hm with heq | hmem
    · subst heq
      simp only [parseFields, hlk, List.get?_eq_none.mpr hle]
    · have hrec := ih ⟨m, hmem, i, hlk, hle⟩
      simp only [parseFields, hrec, Option.map_none']
      split
      · rfl
      · split <;> rfl

/-- Helper: a row with too few columns for some requested measure fails to
parse. -/
theorem parseRow_eq_none {cols measures : List String}
    (h : ∃ m ∈ measures, ∃ i, mapping.lookup m = some i ∧ cols.length ≤ i) :
    parseRow measures cols = none := by
  simp only [parseRow, parseFields_eq_none h, Option.map_none']
  split <;> rfl

/-- Helper: one unparsable row anywhere aborts the whole row loop. -/
theorem parseRows_eq_none (measures : List String) :
    ∀ rows, (∃ cols ∈ rows, parseRow measures cols = none) →
    parseRows measures rows = none := by
  intro rows
  induction rows with
  | nil => rintro ⟨c, hc, _⟩; cases hc
  | cons c cs ih =>
    rintro ⟨cols, hmem, hnone⟩
    rcases List.mem_cons.mp hmem with heq | hmem2
    · subst heq
      simp only [parseRows, hnone]
    · have hrec := ih ⟨cols, hmem2, hnone⟩
      simp only [parseRows, hrec]
      cases parseRow measures c <;> rfl

/-- C7 amended: a response containing a data row with fewer comma-separated
columns than some requested measure's column index requires makes the
appfwk fetcher fail with the `StockApiException` whose message contains the
requested symbol and the query end date (never a partial series), while the
core fetcher aborts with an uncaught `IndexError` (also never a partial
series). -/
theorem fetch_malformed_row_fails (symbol t1 : String) (measures : List String)
    (lines : List String)
    (h1 : ∃ line ∈ lines.drop 1, ∃ m ∈ measures, ∃ i,
        mapping.lookup m = some i ∧ (splitComma (dropLast2 line)).length ≤ i)
    (h2 : ∃ line ∈ lines.drop 1, ∃ m ∈ measures, ∃ i,
        mapping.lookup m = some i ∧ (splitComma line).length ≤ i) :
    get_historical_prices symbol t1 measures lines
      = Except.error (FetchErr.symbolData (errMsg symbol t1))
    ∧ (∃ p q, errMsg symbol t1 = p ++ (symbol ++ q))
    ∧ (∃ p, errMsg symbol t1 = p ++ t1)
    ∧ get_historical_prices_core symbol t1 measures lines
        = Except.error FetchErr.indexError := by
  obtain ⟨line, hmem, hm⟩ := h1
  obtain ⟨line2, hmem2, hm2⟩ := h2
  have e1 : parseRows measures
      ((lines.drop 1).reverse.map (fun day => splitComma (dropLast2 day))) = none := by
    apply parseRows_eq_none
    exact ⟨splitComma (dropLast2 line),
      List.mem_map_of_mem _ (List.mem_reverse.mpr hmem), parseRow_eq_none hm⟩
  have e2 : parseRows measures ((lines.drop 1).reverse.map splitComma) = none := by
    apply parseRows_eq_none
    exact ⟨splitComma line2,
      List.mem_map_of_mem _ (List.mem_reverse.mpr hmem2), parseRow_eq_none hm2⟩
  refine ⟨?_, ?_, ?_, ?_⟩
  · simp only [get_historical_prices, e1]
  · exact ⟨"Symbol \x27",
      "\x27 is invalid or Stock \x27" ++ symbol ++ "\x27 was not on market on " ++ t1,
      by simp [errMsg, string_append_assoc]⟩
  · exact ⟨"Symbol \x27" ++ symbol ++ "\x27 is invalid or Stock \x27" ++ symbol
      ++ "\x27 was not on market on ", rfl⟩
  · simp only [get_historical_prices_core, e2]

/-- C7 counterexample: on a response with the short data row
`2014-02-18,1.0` (2 columns, while measure `close` needs column index 4),
the core CLI fetcher fails with an uncaught `IndexError`, not with the
`StockApiException` the claim demands of the fetch operation. -/
theorem fetch_malformed_core_raises_index_error :
    get_historical_prices_core "ZZZ" "2014-02-19" ["close"]
      ["Date,Open,High,Low,Close,Volume,Adj Close", "2014-02-18,1.0"]
      = Except.error FetchErr.indexError
    ∧ ¬ ∃ s, get_historical_prices_core "ZZZ" "2014-02-19" ["close"]
        ["Date,Open,High,Low,Close,Volume,Adj Close", "2014-02-18,1.0"]
        = Except.error (FetchErr.symbolData s) := by
  refine ⟨rfl, ?_⟩
  rintro ⟨s, hs⟩
  rw [show get_historical_prices_core "ZZZ" "2014-02-19" ["close"]
      ["Date,Open,High,Low,Close,Volume,Adj Close", "2014-02-18,1.0"]
      = Except.error FetchErr.indexError from rfl] at hs
  simp at hs

/-- Witness for C7 at a concrete response with a short data row. -/
theorem fetch_malformed_row_fails_witness :
    (∃ line ∈ (["Date,Open,High,Low,Close,Volume,Adj Close\r\n",
        "2014-02-18,1.0\r\n"].drop 1), ∃ m ∈ ["close"], ∃ i,
        mapping.lookup m = some i ∧ (splitComma (dropLast2 line)).length ≤ i)
    ∧ get_historical_prices "ZZZ" "2014-02-19" ["close"]
        ["Date,Open,High,Low,Close,Volume,Adj Close\r\n", "2014-02-18,1.0\r\n"]
      = Except.error (FetchErr.symbolData (errMsg "ZZZ" "2014-02-19")) :=
  ⟨⟨"2014-02-18,1.0\r\n", by decide, "close", by decide, 4, rfl, by decide⟩,
    (fetch_malformed_row_fails "ZZZ" "2014-02-19" ["close"]
      ["Date,Open,High,Low,Close,Volume,Adj Close\r\n", "2014-02-18,1.0\r\n"]
      ⟨"2014-02-18,1.0\r\n", by decide, "close", by decide, 4, rfl, by decide⟩
      ⟨"2014-02-18,1.0\r\n", by decide, "close", by decide, 4, rfl, by decide⟩).1⟩

/-- Helper: a name outside the five known measures is not in `mapping`. -/
theorem mapping_lookup_none {m : String} (hm : m ∉ knownMeasures) :
    mapping.lookup m = none := by
  simp only [knownMeasures, List.mem_cons, List.not_mem_nil, or_false, not_or] at hm
  obtain ⟨h1, h2, h3, h4, h5⟩ := hm
  simp [mapping, List.lookup, beq_eq_false_iff_ne.mpr h1, beq_eq_false_iff_ne.mpr h2,
    beq_eq_false_iff_ne.mpr h3, beq_eq_false_iff_ne.mpr h4, beq_eq_false_iff_ne.mpr h5]

/-- Helper: the measure loop only ever binds keys that are in `mapping`. -/
theorem parseFields_lookup_none {m : String} (hm : mapping.lookup m = none)
    {cols : List String} :
    ∀ {ms : List String} {fields : List (String × Val)},
    parseFields cols ms = some fields → fields.lookup m = none := by
  intro ms
  induction ms with
  | nil =>
    intro fields h
    simp only [parseFields, Option.some.injEq] at h
    subst h
    rfl
  | cons m2 ms ih =>
    intro fields h
    unfold parseFields at h
    cases hl : mapping.lookup m2 with
    | none => simp only [hl] at h; exact ih h
    | some i =>
      simp only [hl] at h
      cases hg : cols.get? i with
      | none => simp only [hg] at h; cases h
      | some s =>
        simp only [hg] at h
        cases hf : parseFields cols ms with
        | none => rw [hf] at h; cases h
        | some rest =>
          rw [hf] at h
          simp only [Option.map_some', Option.some.injEq] at h
          subst h
          have hne : m ≠ m2 := by
            intro e
            rw [e, hl] at hm
            cases hm
          simp [List.lookup, beq_eq_false_iff_ne.mpr hne, ih hf]

/-- Helper: filtering cannot introduce a binding for a key that had none. -/
theorem lookup_filter_none {k : String} {p : String × Val → Bool} :
    ∀ {l : Day}, l.lookup k = none → (l.filter p).lookup k = none := by
  intro l
  induction l with
  | nil => intro _; rfl
  | cons a rest ih =>
    obtain ⟨k1, v1⟩ := a
    intro h
    cases hb : (k == k1) with
    | true => rw [List.lookup_cons, hb] at h; cases h
    | false =>
      rw [List.lookup_cons, hb] at h
      cases hp : p (k1, v1) with
      | true => simp only [List.filter_cons, hp, if_true, List.lookup_cons, hb]; exact ih h
      | false => simp only [List.filter_cons, hp, if_false]; exact ih h

/-- Helper: a parsed row's measure fields never contain a key outside
`mapping`. -/
theorem parseRow_fields_lookup_none {measures cols : List String} {day : Day}
    {m : String} (hm : mapping.lookup m = none)
    (h : parseRow measures cols = some day) :
    (fieldsOf day).lookup m = none := by
  unfold parseRow at h
  cases h0 : cols.get? 0 with
  | none => rw [h0] at h; cases h
  | some d =>
    rw [h0] at h
    cases hf : parseFields cols measures with
    | none => rw [hf] at h; cases h
    | some fields =>
      rw [hf] at h
      simp only [Option.map_some', Option.some.injEq] at h
      subst h
      unfold fieldsOf
      simp only [List.filter_cons, bne_self_eq_false, if_false]
      exact lookup_filter_none (parseFields_lookup_none hm hf)

/-- Helper: dropping the measures that are not in `mapping` does not change
the measure loop. -/
theorem parseFields_filter_known (cols : List String) :
    ∀ ms : List String,
    parseFields cols (ms.filter (fun x => (mapping.lookup x).isSome))
      = parseFields cols ms := by
  intro ms
  induction ms with
  | nil => rfl
  | cons m2 ms ih =>
    cases hl : mapping.lookup m2 with
    | none =>
      have hs : ((mapping.lookup m2).isSome) = false := by rw [hl]; rfl
      simp only [List.filter_cons, hs, Bool.false_eq_true, if_false]
      conv_rhs => rw [parseFields]
      simp only [hl, ih]
    | some i =>
      have hs : ((mapping.lookup m2).isSome) = true := by rw [hl]; rfl
      simp only [List.filter_cons, hs, if_true]
      simp only [parseFields, hl, ih]

/-- Helper: the whole-row parse is likewise unchanged. -/
theorem parseRow_filter_known (measures cols : List String) :
    parseRow (measures.filter (fun x => (mapping.lookup x).isSome)) cols
      = parseRow measures cols := by
  unfold parseRow
  rw [parseFields_filter_known]

/-- Helper: the row loop under two pointwise-equal row parsers. -/
theorem parseRows_congr {ms1 ms2 : List String}
    (h : ∀ cols, parseRow ms1 cols = parseRow ms2 cols) :
    ∀ rows, parseRows ms1 rows = parseRows ms2 rows := by
  intro rows
  induction rows with
  | nil => rfl
  | cons c cs ih =>
    unfold parseRows
    rw [h c, ih]

/-- Helper: a member of the right list of a pointwise relation is related
to some member of the left list. -/
theorem forall₂_exists_left {α β : Type} {R : α → β → Prop} :
    ∀ {l : List α} {l2 : List β}, List.Forall₂ R l l2 → ∀ b ∈ l2, ∃ a, R a b := by
  intro l l2 h
  induction h with
  | nil => intro b hb; cases hb
  | cons hr _ ih =>
    intro b hb
    rcases List.mem_cons.mp hb with heq | hb2
    · subst heq; exact ⟨_, hr⟩
    · exact ih b hb2

/-- C10: the fetch silently ignores unknown measure names - the result is
unchanged if the names outside the fixed mapping are removed from the
request, and when the fetch succeeds no returned row's measure fields
contain a binding for a name outside open/high/low/close/volume. -/
theorem fetch_ignores_unknown_measures (symbol t1 : String)
    (measures : List String) (lines : List String) (m : String)
    (hm : m ∉ knownMeasures) :
    get_historical_prices symbol t1 measures lines
      = get_historical_prices symbol t1
          (measures.filter (fun x => (mapping.lookup x).isSome)) lines
    ∧ ∀ ret, get_historical_prices symbol t1 measures lines = Except.ok ret →
        ∀ day ∈ ret, (fieldsOf day).lookup m = none := by
  constructor
  · unfold get_historical_prices
    rw [parseRows_congr (fun cols => parseRow_filter_known measures cols)]
  · intro ret h day hday
    unfold get_historical_prices at h
    cases hp : parseRows measures
        ((lines.drop 1).reverse.map (fun day => splitComma (dropLast2 day))) with
    | none => rw [hp] at h; cases h
    | some r =>
      rw [hp] at h
      cases h
      obtain ⟨cols, hrel⟩ := forall₂_exists_left (parseRows_forall₂ measures hp) day hday
      exact parseRow_fields_lookup_none (mapping_lookup_none hm) hrel

/-- Witness for C10: requesting the unknown measure name `bogus` alongside
`close` leaves the fetch result unchanged and adds no `bogus` column. -/
theorem fetch_ignores_unknown_measures_witness :
    ("bogus" ∉ knownMeasures)
    ∧ (get_historical_prices "AAPL" "2014-02-20" ["close", "bogus"] exLines
        = get_historical_prices "AAPL" "2014-02-20"
            (["close", "bogus"].filter (fun x => (mapping.lookup x).isSome)) exLines
      ∧ ∀ ret, get_historical_prices "AAPL" "2014-02-20" ["close", "bogus"] exLines
          = Except.ok ret → ∀ day ∈ ret, (fieldsOf day).lookup "bogus" = none) :=
  ⟨by decide,
    fetch_ignores_unknown_measures "AAPL" "2014-02-20" ["close", "bogus"] exLines
      "bogus" (by decide)⟩

/-- C8: given a non-empty symbol, a non-empty measures option whose names
are all known, and a valid resolution, the CLI validation raises its usage
error exactly when the parsed begin date is strictly later than the
minimum of the parsed end date and today's date, and accepts the date
arguments otherwise. -/
theorem validate_args_begin_date_check (symbol measures resolution : String)
    (b endDate today : Nat)
    (hsym : symbol ≠ "") (hms : measures ≠ "")
    (hall : ∀ m ∈ splitComma measures, knownMeasures.contains m = true)
    (hres : (["day", "week"].contains resolution) = true) :
    (b > min endDate today →
      validate_args symbol measures resolution (some b) endDate today
        = Except.error ("Begin date " ++ toString b
            ++ " is later than either today\x27s date " ++ toString today
            ++ " or end date " ++ toString endDate))
    ∧ (b ≤ min endDate today →
      validate_args symbol measures resolution (some b) endDate today
        = Except.ok ()) := by
  have hfind : (splitComma measures).find? (fun m => !(knownMeasures.contains m))
      = none := by
    rw [List.find?_eq_none]
    intro x hx
    rw [hall x hx]
    decide
  have key : validate_args symbol measures resolution (some b) endDate today
      = if b > min endDate today then
          Except.error ("Begin date " ++ toString b
            ++ " is later than either today\x27s date " ++ toString today
            ++ " or end date " ++ toString endDate)
        else Except.ok () := by
    unfold validate_args
    rw [if_neg hsym, if_neg hms]
    simp only [hfind, hres, if_true]
  constructor
  · intro hgt
    rw [key, if_pos hgt]
  · intro hle
    rw [key, if_neg (Nat.not_lt.mpr hle)]

/-- Witness for C8: valid symbol, measures, and resolution with begin 5,
end 10, today 7 - the begin date is accepted. -/
theorem validate_args_begin_date_check_witness :
    ("AAPL" ≠ "") ∧ (5 ≤ min 10 7)
    ∧ validate_args "AAPL" "close,open" "day" (some 5) 10 7 = Except.ok () :=
  ⟨by decide, by decide,
    (validate_args_begin_date_check "AAPL" "close,open" "day" 5 10 7
      (by decide) (by decide) (by decide) (by decide)).2 (by decide)⟩

/-- C9: in the query-parameter dict sent to the provider, `a` and `d` carry
the begin and end month decremented by one while `b`/`e` (day) and `c`/`f`
(year) are sent unchanged. -/
theorem url_params_month_zero_based (symbol : String) (b e : PDate)
    (resolution : String) :
    (buildParams symbol b e resolution).lookup "a" = some (PVal.num (b.month - 1))
    ∧ (buildParams symbol b e resolution).lookup "b" = some (PVal.num b.day)
    ∧ (buildParams symbol b e resolution).lookup "c" = some (PVal.num b.year)
    ∧ (buildParams symbol b e resolution).lookup "d" = some (PVal.num (e.month - 1))
    ∧ (buildParams symbol b e resolution).lookup "e" = some (PVal.num e.day)
    ∧ (buildParams symbol b e resolution).lookup "f" = some (PVal.num e.year) :=
  ⟨rfl, rfl, rfl, rfl, rfl, rfl⟩
